import Mathlib

/-!
Shallow embedding of the fuzzyfields data-cleaning library.

The value universe of the model is the set of hashable finite scalars that
the claims exercise: Python `None`, `int`, finite `float` (represented by its
exact rational value), finite `decimal.Decimal`, the floating NaN, and `str`.
Infinite floats/decimals, complex numbers and unhashable containers are outside
the modelled universe, so the `pickle` fallback branches of the source
(`core.py`, `domain.py`) and the `math.isinf` branch of `Integer._num_converter`
are unreachable in the model and are noted where they occur.
-/

namespace FF

/-- Decidable equality for `Except`, so that concrete runs of the model can
be settled by `decide`. -/
instance {ε α : Type} [DecidableEq ε] [DecidableEq α] :
    DecidableEq (Except ε α) := fun x y =>
  match x, y with
  | .ok a, .ok b =>
    if h : a = b then .isTrue (by rw [h])
    else .isFalse (fun hh => h (Except.ok.inj hh))
  | .error a, .error b =>
    if h : a = b then .isTrue (by rw [h])
    else .isFalse (fun hh => h (Except.error.inj hh))
  | .ok _, .error _ => .isFalse (fun hh => Except.noConfusion hh)
  | .error _, .ok _ => .isFalse (fun hh => Except.noConfusion hh)

/-- Python scalar values, as used by the fuzzyfields pipeline.  A `float q` is
a finite IEEE-754 binary64 value carried as its exact rational value; `nan` is
the floating NaN (also standing for `Decimal('NaN')`). -/
inductive PyVal where
  | none
  | int (n : ℤ)
  | float (q : ℚ)
  | dec (q : ℚ)
  | nan
  | str (s : String)
deriving DecidableEq

/-! Rational arithmetic helpers.  The standard `Rat` arithmetic operations
are `@[irreducible]`, which blocks kernel evaluation by `decide`; the model
therefore computes with the reducible primitives `mkRat`/`Rat.divInt`
(values are identical to the standard operations). -/

/-- Integer embedded in `ℚ`. -/
def intQ (n : ℤ) : ℚ := mkRat n 1

/-- Exact product of rationals. -/
def qmul (a b : ℚ) : ℚ := mkRat (a.num * b.num) (a.den * b.den)

/-- Exact quotient of rationals (0 when dividing by 0, as `Rat.div`). -/
def qdiv (a b : ℚ) : ℚ := Rat.divInt (a.num * (b.den : ℤ)) ((a.den : ℤ) * b.num)

/-- Integer power with kernel-friendly recursion. -/
def npowInt (b : ℤ) : ℕ → ℤ
  | 0 => 1
  | n + 1 => b * npowInt b n

/-- `10 ^ n` in `ℚ`. -/
def q10pow (n : ℕ) : ℚ := intQ (npowInt 10 n)

/-- `2 ^ e` in `ℚ` for an integer exponent. -/
def q2pow (e : ℤ) : ℚ :=
  if 0 ≤ e then intQ (npowInt 2 e.toNat) else mkRat 1 (2 ^ (-e).toNat)

/-- Python `==` on the modelled universe: numeric types compare by exact
value across `int`/`float`/`Decimal`, NaN compares unequal to everything
(including itself), `None` equals only `None`. -/
def pyEq : PyVal → PyVal → Bool
  | .none, .none => true
  | .int n, .int m => n = m
  | .int n, .float q => intQ n = q
  | .int n, .dec q => intQ n = q
  | .float q, .int n => q = intQ n
  | .float q, .float r => q = r
  | .float q, .dec r => q = r
  | .dec q, .int n => q = intQ n
  | .dec q, .float r => q = r
  | .dec q, .dec r => q = r
  | .str a, .str b => a = b
  | _, _ => false

/-- Characters stripped by Python `str.strip()` (ASCII whitespace). -/
def pySpace (c : Char) : Bool :=
  c = ' ' || c = '\t' || c = '\n' || c = '\r' || c = '\x0b' || c = '\x0c'

/-- Drop trailing characters satisfying `pySpace`. -/
def trimEnd : List Char → List Char
  | [] => []
  | c :: cs =>
    let r := trimEnd cs
    if r = [] && pySpace c then [] else c :: r

/-- Model of Python `str.strip()`: drop leading and trailing whitespace. -/
def pyStrip (s : String) : String :=
  String.mk (trimEnd (s.data.dropWhile pySpace))

/-- `core.NA_VALUES`: string values interpreted as empty. -/
def NA_VALUES : List String :=
  ["", "#N/A", "#N/A N/A", "#NA", "-1.#IND", "-1.#QNAN", "-NaN", "-nan",
   "1.#IND", "1.#QNAN", "N/A", "NA", "NULL", "NaN", "n/a", "nan", "null",
   "N.A.", "N.A"]

/-- `core.isnull` restricted to the modelled universe: `None` and floating
NaN are null (the numpy/pandas-only sentinels such as `NaT` are outside the
model). -/
def isnull : PyVal → Bool
  | .none => true
  | .nan => true
  | _ => false

/-- `FuzzyField.preprocess`: strip strings and map every null sentinel to the
canonical null marker `PyVal.none`; pass everything else through unchanged. -/
def preprocess (value : PyVal) : PyVal :=
  match value with
  | .str s =>
    let t := pyStrip s
    if NA_VALUES.contains t then .none else .str t
  | v => if isnull v then .none else v

/-- The validation-error taxonomy of `errors.py` (the five `ValidationError`
subclasses), each carrying the field name, offending value and expectation
data its constructor stores. -/
inductive VErr where
  | malformed (name : Option String) (value : PyVal) (expect : String)
  | fieldType (name : Option String) (value : PyVal) (expect : String)
  | domainE (name : Option String) (value : PyVal) (choices : String)
  | duplicate (name : Option String) (value : PyVal)
  | missing (name : Option String)
deriving DecidableEq

/-- The generic attributes of a `FuzzyField` (`core.FuzzyField.__init__`). -/
structure FieldCfg where
  name : Option String := Option.none
  required : Bool := true
  default : PyVal := .none
  unique : Bool := false
deriving DecidableEq

/-- Membership of `value in seen_values` under Python set semantics (hash
plus `==`); on the modelled universe this is `pyEq` membership. -/
def seenMem (seen : List PyVal) (v : PyVal) : Bool :=
  seen.any (pyEq v)

/-- `FuzzyField.postprocess`: enforce `required` on null values (returning
the default and skipping the uniqueness check), and enforce `unique` on
non-null values.  The source's inner `if value is None` branch is dead code
(nulls were already handled) and the `pickle` fallback for unhashable values
is unreachable on the modelled universe, so neither appears. -/
def postprocess (cfg : FieldCfg) (seen : List PyVal) (value : PyVal) :
    Except VErr (PyVal × List PyVal) :=
  if value = .none then
    if cfg.required then .error (.missing cfg.name)
    else .ok (cfg.default, seen)
  else if cfg.unique then
    if seenMem seen value then .error (.duplicate cfg.name value)
    else .ok (value, seen ++ [value])
  else .ok (value, seen)

/-- `FuzzyField.parse`: `preprocess`, then `validate` (skipped when the
preprocessed value is null), then `postprocess`.  The variant's `validate`
method is passed as a function; the uniqueness state is threaded
explicitly. -/
def fieldParse (cfg : FieldCfg) (validate : PyVal → Except VErr PyVal)
    (seen : List PyVal) (raw : PyVal) : Except VErr (PyVal × List PyVal) := do
  let v := preprocess raw
  let v' ← if v = .none then pure v else validate v
  postprocess cfg seen v'

/-- Convenience projection of `fieldParse` onto the returned value, for
fields whose uniqueness state is irrelevant. -/
def fieldParseValue (cfg : FieldCfg) (validate : PyVal → Except VErr PyVal)
    (seen : List PyVal) (raw : PyVal) : Except VErr PyVal :=
  (fieldParse cfg validate seen raw).map Prod.fst

/-! Numeric literal parsing.  `parseNum` models the common finite-value
grammar of Python `float(str)` and `decimal.Decimal(str)` on pre-stripped
input: optional sign, digits with an optional decimal point (at least one
digit overall), and an optional `e`/`E` exponent with optional sign.  The
`inf`/`nan` spellings and digit underscores are outside the modelled finite
universe. -/

/-- Decimal digit test. -/
def isDig (c : Char) : Bool := '0' ≤ c && c ≤ '9'

/-- Numeric value of a digit character. -/
def digVal (c : Char) : ℕ := c.toNat - '0'.toNat

/-- Value of a digit run. -/
def digsVal (ds : List Char) : ℕ :=
  ds.foldl (fun a c => a * 10 + digVal c) 0

/-- Exponent tail: optional sign then at least one digit, consuming the
whole rest of the input. -/
def parseExpTail (m : ℚ) (l : List Char) : Option ℚ :=
  let sr : ℤ × List Char :=
    match l with
    | '+' :: r => (1, r)
    | '-' :: r => (-1, r)
    | _ => (1, l)
  let ds := sr.2.takeWhile isDig
  let rest := sr.2.dropWhile isDig
  if ds.isEmpty || !rest.isEmpty then Option.none
  else if sr.1 = 1 then some (qmul m (q10pow (digsVal ds)))
  else some (qdiv m (q10pow (digsVal ds)))

/-- Optional exponent part. -/
def parseExp (m : ℚ) (l : List Char) : Option ℚ :=
  match l with
  | [] => some m
  | 'e' :: r => parseExpTail m r
  | 'E' :: r => parseExpTail m r
  | _ => Option.none

/-- Unsigned significand followed by an optional exponent. -/
def parseBody (l : List Char) : Option ℚ :=
  let ip := l.takeWhile isDig
  let r1 := l.dropWhile isDig
  match r1 with
  | '.' :: r2 =>
    let fp := r2.takeWhile isDig
    let r3 := r2.dropWhile isDig
    if ip.isEmpty && fp.isEmpty then Option.none
    else parseExp (qdiv (intQ (digsVal (ip ++ fp))) (q10pow fp.length)) r3
  | _ =>
    if ip.isEmpty then Option.none else parseExp (intQ (digsVal ip)) r1

/-- Exact rational value of a numeric literal, or `none` if ill-formed. -/
def parseNum (l : List Char) : Option ℚ :=
  match l with
  | '+' :: r => parseBody r
  | '-' :: r => (parseBody r).map Neg.neg
  | _ => parseBody l

/-- Model of Python `int(str)`: optional sign then at least one digit. -/
def parseIntS (s : String) : Option ℤ :=
  let sr : ℤ × List Char :=
    match s.data with
    | '+' :: r => (1, r)
    | '-' :: r => (-1, r)
    | _ => (1, s.data)
  let ds := sr.2.takeWhile isDig
  let rest := sr.2.dropWhile isDig
  if ds.isEmpty || !rest.isEmpty then Option.none
  else some (sr.1 * (digsVal ds : ℤ))

/-! IEEE-754 binary64 rounding.  Python floats are doubles; `f64` maps an
exact rational to the rational value of the nearest double (round to nearest,
ties to even).  The model covers the normal range, which contains every float
the claims exercise; overflow and subnormals are not modelled. -/

/-- Round a rational to the nearest integer, ties to even (computed on the
numerator and denominator, which the kernel can evaluate). -/
def rhe (q : ℚ) : ℤ :=
  let f := q.floor
  let rem := q.num - f * (q.den : ℤ)
  if 2 * rem < (q.den : ℤ) then f
  else if (q.den : ℤ) < 2 * rem then f + 1
  else if f % 2 = 0 then f else f + 1

/-- Fueled search upward for the binade exponent. -/
def ilogUp : ℕ → ℚ → ℤ → ℤ
  | 0, _, e => e
  | fuel + 1, q, e => if q2pow (e + 1) ≤ q then ilogUp fuel q (e + 1) else e

/-- Fueled search downward for the binade exponent. -/
def ilogDown : ℕ → ℚ → ℤ → ℤ
  | 0, _, e => e
  | fuel + 1, q, e => if q < q2pow e then ilogDown fuel q (e - 1) else e

/-- Binade exponent of a positive rational: the `e` with `2^e ≤ q < 2^(e+1)`
(for the magnitudes the model is used at). -/
def ilog2 (q : ℚ) : ℤ :=
  if 1 ≤ q then ilogUp 1100 q 0 else ilogDown 1100 q 0

/-- Round a positive rational to 53 significant binary digits. -/
def f64pos (q : ℚ) : ℚ :=
  let e := ilog2 q
  qmul (intQ (rhe (qmul q (q2pow (52 - e))))) (q2pow (e - 52))

/-- Rational value of the double nearest to `q`. -/
def f64 (q : ℚ) : ℚ :=
  if q = 0 then 0 else if q < 0 then -f64pos (-q) else f64pos q

/-! The numeric field variants (`numbers.py`). -/

/-- Range configuration of `Float.__init__`; `Option.none` bounds stand for
the default infinite bounds. -/
structure Bnds where
  minV : Option ℚ := Option.none
  maxV : Option ℚ := Option.none
  allowMin : Bool := true
  allowMax : Bool := true
  allowZero : Bool := true
deriving DecidableEq

/-- String rendering used by `Float.domain_str`; finite bounds are rendered
by their rational form (the exact Python float repr is not modelled and no
claim depends on it). -/
def bndStr (b : Option ℚ) (inf : String) : String :=
  match b with
  | Option.none => inf
  | some q => toString q

/-- `Float.domain_str`. -/
def domainStr (b : Bnds) : String :=
  let l := if b.allowMin then "[" else "]"
  let r := if b.allowMax then "]" else "["
  let core := l ++ bndStr b.minV "-inf" ++ ", " ++ bndStr b.maxV "inf" ++ r
  if b.allowZero then core else core ++ " non-zero"

/-- Value of `float(value)` applied to an already-converted numeric value
(used by the range check); `Option.none` marks NaN, whose comparisons are
all false. -/
def toFloatQ : PyVal → Option ℚ
  | .float q => some q
  | .int n => some (f64 (intQ n))
  | .dec q => some (f64 q)
  | _ => Option.none

/-- `Float._num_converter`: `float(value)`, with `TypeError` mapped to
`FieldTypeError` and `ValueError` to `MalformedFieldError`. -/
def floatConv (name : Option String) (v : PyVal) : Except VErr (Option PyVal) :=
  match v with
  | .int n => .ok (some (.float (f64 (intQ n))))
  | .float q => .ok (some (.float q))
  | .dec q => .ok (some (.float (f64 q)))
  | .nan => .ok (some .nan)
  | .str s =>
    match parseNum s.data with
    | some q => .ok (some (.float (f64 q)))
    | Option.none => .error (.malformed name v "number")
  | .none => .error (.fieldType name v "number")

/-- Drop the trailing `'0'` run (`re.sub(r'0*$', '', value)`). -/
def stripTrailZeros (l : List Char) : List Char :=
  (l.reverse.dropWhile (fun c => c = '0')).reverse

/-- The pre-parse beautification of `Decimal._num_converter`: uppercase,
then strip redundant trailing zeros after a decimal point (inside the
mantissa only, in scientific notation). -/
def beautify (s : String) : String :=
  let u := s.data.map Char.toUpper
  if u.contains 'E' then
    let m := u.takeWhile (fun c => c ≠ 'E')
    let ex := (u.dropWhile (fun c => c ≠ 'E')).drop 1
    let m' := if m.contains '.' then stripTrailZeros m else m
    String.mk (m' ++ 'E' :: ex)
  else if u.contains '.' then String.mk (stripTrailZeros u)
  else String.mk u

/-- `Decimal._num_converter`: shortcut on `Decimal` input, beautify strings,
then build an exact `Decimal`; parse failure of a string is
`decimal.InvalidOperation`, hence `MalformedFieldError`, while `None` input
is a `TypeError`, hence `FieldTypeError`. -/
def decConv (name : Option String) (v : PyVal) : Except VErr (Option PyVal) :=
  match v with
  | .dec q => .ok (some (.dec q))
  | .int n => .ok (some (.dec (intQ n)))
  | .float q => .ok (some (.dec q))
  | .nan => .ok (some .nan)
  | .str s =>
    match parseNum (beautify s).data with
    | some q => .ok (some (.dec q))
    | Option.none => .error (.malformed name v "number")
  | .none => .error (.fieldType name v "number")

/-- Python `int()` truncation toward zero on exact rationals. -/
def pyTrunc (q : ℚ) : ℤ :=
  if q < 0 then -(Rat.neg q).floor else q.floor

/-- The `Decimal`-based tail of `Integer._num_converter`: truncate and
require a zero fractional part.  The `math.isinf` branch is unreachable on
the finite modelled universe. -/
def intDecTail (name : Option String) (orig : PyVal) (q : ℚ) :
    Except VErr (Option PyVal) :=
  let v := pyTrunc q
  if intQ v = q then .ok (some (.int v))
  else .error (.malformed name orig "integer")

/-- `Integer._num_converter`: native ints pass through, strings first try
`int(str)`, everything else goes through exact `Decimal` parsing with a
zero-fraction check.  NaN input is excluded upstream (the source `assert`s
this); the model maps it to a type error. -/
def intConv (name : Option String) (v : PyVal) : Except VErr (Option PyVal) :=
  match v with
  | .int n => .ok (some (.int n))
  | .str s =>
    match parseIntS s with
    | some k => .ok (some (.int k))
    | Option.none =>
      match parseNum s.data with
      | some q => intDecTail name v q
      | Option.none => .error (.malformed name v "integer")
  | .float q => intDecTail name v q
  | .dec q => intDecTail name v q
  | .nan => .error (.fieldType name v "integer")
  | .none => .error (.fieldType name v "integer")

/-- `Percentage._num_converter`: a trailing `%` strips the suffix, treats a
remaining null sentinel as absence, and divides by 100 in float arithmetic;
anything else follows the plain float path with expectation `"percentage"`.
In the `%` branch the source rebinds `value` to the suffix-stripped text
before `float` can raise, so the malformed error carries the stripped
string. -/
def pctConv (name : Option String) (v : PyVal) : Except VErr (Option PyVal) :=
  match v with
  | .str s =>
    if s.data.getLast? = some '%' then
      let t := pyStrip (String.mk s.data.dropLast)
      if NA_VALUES.contains t then .ok Option.none
      else
        match parseNum t.data with
        | some q => .ok (some (.float (f64 (qdiv (f64 q) (intQ 100)))))
        | Option.none => .error (.malformed name (.str t) "percentage")
    else
      match parseNum s.data with
      | some q => .ok (some (.float (f64 q)))
      | Option.none => .error (.malformed name v "percentage")
  | .int n => .ok (some (.float (f64 (intQ n))))
  | .float q => .ok (some (.float q))
  | .dec q => .ok (some (.float (f64 q)))
  | .nan => .ok (some .nan)
  | .none => .error (.fieldType name v "percentage")

/-- The string preprocessing of `Float.validate`: remove thousands
separators and convert the accounting `( … )` and Excel `- … -` negative
conventions. -/
def numStrPrep (l : List Char) : List Char :=
  let l := l.filter (fun c => c ≠ ',')
  if l.head? = some '(' && l.getLast? = some ')' then
    '-' :: (l.drop 1).dropLast
  else if l.take 2 = ['-', ' '] && l.reverse.take 2 = ['-', ' '] then
    '-' :: ((l.drop 2).dropLast).dropLast
  else l

/-- The range check of `Float.validate`, on the float image of the converted
value (`Option.none` bounds are the infinite defaults; a NaN value compares
false everywhere and always passes). -/
def rangeBad (b : Bnds) (qf : Option ℚ) : Bool :=
  match qf with
  | Option.none => false
  | some q =>
    (!b.allowZero && q = 0) ||
    (match b.minV with
     | some m => (b.allowMin && q < m) || (!b.allowMin && q ≤ m)
     | Option.none => false) ||
    (match b.maxV with
     | some m => (b.allowMax && q > m) || (!b.allowMax && q ≥ m)
     | Option.none => false)

/-- `Float.validate`, generic in the `_num_converter` of the variant:
preprocess strings, convert, propagate a `None` conversion, then range-check
against the configured domain. -/
def numValidate (name : Option String) (b : Bnds)
    (conv : Option String → PyVal → Except VErr (Option PyVal))
    (value : PyVal) : Except VErr PyVal := do
  let v := match value with
    | .str s => .str (String.mk (numStrPrep s.data))
    | w => w
  let r ← conv name v
  match r with
  | Option.none => pure .none
  | some nv =>
    if rangeBad b (toFloatQ nv) then .error (.domainE name nv (domainStr b))
    else pure nv

/-- The `validate` method of the `Float` field with given bounds. -/
def floatValidate (name : Option String) (b : Bnds) : PyVal → Except VErr PyVal :=
  numValidate name b floatConv

/-- The `validate` method of the `Decimal` field. -/
def decValidate (name : Option String) (b : Bnds) : PyVal → Except VErr PyVal :=
  numValidate name b decConv

/-- The `validate` method of the `Integer` field. -/
def intValidate (name : Option String) (b : Bnds) : PyVal → Except VErr PyVal :=
  numValidate name b intConv

/-- The `validate` method of the `Percentage` field. -/
def pctValidate (name : Option String) (b : Bnds) : PyVal → Except VErr PyVal :=
  numValidate name b pctConv

/-- Configuration of a numeric field built with all-default parameters: the
default value is NaN (`numbers.Float.__init__`). -/
def numCfg : FieldCfg := { default := .nan }

/-- `Float().parse` on fresh state. -/
def floatParse (raw : PyVal) : Except VErr PyVal :=
  fieldParseValue numCfg (floatValidate Option.none {}) [] raw

/-- `Decimal().parse` on fresh state. -/
def decParse (raw : PyVal) : Except VErr PyVal :=
  fieldParseValue numCfg (decValidate Option.none {}) [] raw

/-- `Integer().parse` on fresh state. -/
def intParse (raw : PyVal) : Except VErr PyVal :=
  fieldParseValue numCfg (intValidate Option.none {}) [] raw

/-- `Percentage().parse` on fresh state. -/
def pctParse (raw : PyVal) : Except VErr PyVal :=
  fieldParseValue numCfg (pctValidate Option.none {}) [] raw

/-! Association lists with overwrite-on-insert, modelling Python `dict`
(insertion keeps the first stored key object and overwrites its value, as
CPython does). -/

/-- Insert with overwrite into an association list. -/
def alInsert {κ α : Type} [DecidableEq κ] :
    List (κ × α) → κ → α → List (κ × α)
  | [], k, v => [(k, v)]
  | (k0, v0) :: r, k, v =>
    if k0 = k then (k0, v) :: r else (k0, v0) :: alInsert r k v

/-- Lookup in an association list. -/
def alGet {κ α : Type} [DecidableEq κ] : List (κ × α) → κ → Option α
  | [], _ => Option.none
  | (k0, v0) :: r, k => if k = k0 then some v0 else alGet r k

/-! The string fields (`strings.py`). -/

/-- `String.validate`: accept exactly the strings. -/
def stringValidate (name : Option String) : PyVal → Except VErr PyVal
  | .str s => .ok (.str s)
  | v => .error (.fieldType name v "string")

/-- Regular expressions, as an abstract syntax tree with the constructs the
claims exercise (`empt` matches nothing, `digit` is the `\d` class). -/
inductive Rgx where
  | empt
  | eps
  | chr (c : Char)
  | digit
  | seq (a b : Rgx)
  | alt (a b : Rgx)
  | star (a : Rgx)
deriving DecidableEq

/-- Does the regex accept the empty string? -/
def nullable : Rgx → Bool
  | .empt => false
  | .eps => true
  | .chr _ => false
  | .digit => false
  | .seq a b => nullable a && nullable b
  | .alt a b => nullable a || nullable b
  | .star _ => true

/-- Brzozowski derivative with respect to one character. -/
def deriv : Rgx → Char → Rgx
  | .empt, _ => .empt
  | .eps, _ => .empt
  | .chr c, d => if c = d then .eps else .empt
  | .digit, d => if isDig d then .eps else .empt
  | .seq a b, d =>
    if nullable a then .alt (.seq (deriv a d) b) (deriv b d)
    else .seq (deriv a d) b
  | .alt a b, d => .alt (deriv a d) (deriv b d)
  | .star a, d => .seq (deriv a d) (.star a)

/-- Does the regex match the whole character list? -/
def rmatch : Rgx → List Char → Bool
  | r, [] => nullable r
  | r, c :: cs => rmatch (deriv r c) cs

/-- Does the regex match some initial segment of the character list?  This
is the acceptance condition of Python `re.Pattern.match`, which anchors at
the start of the string only. -/
def startMatch : Rgx → List Char → Bool
  | r, [] => nullable r
  | r, c :: cs => nullable r || startMatch (deriv r c) cs

/-- Full-string acceptance, the anchored-at-both-ends condition the spec
describes (`re.fullmatch`); stated from the spec for comparison with the
source's `match`-based check. -/
def fullMatch (r : Rgx) (s : String) : Bool :=
  rmatch r s.data

/-- A `RegEx` field: the compiled pattern and the original pattern string
(`self.pattern.pattern`), which the error message quotes. -/
structure RegExF where
  patStr : String
  pat : Rgx

/-- `RegEx.validate`: non-strings are a type error; strings must match the
pattern at the start of the string (`self.pattern.match(value)`), else a
`MalformedFieldError` quoting the pattern. -/
def regexValidate (name : Option String) (f : RegExF) : PyVal → Except VErr PyVal
  | .str s =>
    if startMatch f.pat s.data then .ok (.str s)
    else .error (.malformed name (.str s) ("'" ++ f.patStr ++ "'"))
  | v => .error (.fieldType name v "string")

/-! The `Domain` field (`domain.py`).  Choice maps are keyed by Python
values compared with `==` (`pyEq`); since the modelled universe is hashable,
the `pickle` fallbacks are unreachable.  The `passthrough` distinction is
invisible in the pure model (the map is derived from the same immutable
choice list either way). -/

/-- ASCII lowercasing, modelling `str.lower()` on the claims' inputs. -/
def pyLower (s : String) : String :=
  String.mk (s.data.map Char.toLower)

/-- The key under which a value is stored or looked up: strings are
case-folded when the field is case-insensitive, everything else is its own
key (`Domain._parse_choices` / `Domain.validate`). -/
def keyTrans (caseSensitive : Bool) : PyVal → PyVal
  | .str s => if caseSensitive then .str s else .str (pyLower s)
  | v => v

/-- Insert a choice into the lookup map: an entry whose key compares `==`
has its value overwritten (CPython dict assignment keeps the stored key). -/
def insertEq (m : List (PyVal × PyVal)) (k v : PyVal) : List (PyVal × PyVal) :=
  match m with
  | [] => [(k, v)]
  | (k0, v0) :: rest =>
    if pyEq k0 k then (k0, v) :: rest else (k0, v0) :: insertEq rest k v

/-- Map lookup by `==` comparison. -/
def lookupEq (m : List (PyVal × PyVal)) (k : PyVal) : Option PyVal :=
  match m with
  | [] => Option.none
  | (k0, v0) :: rest => if pyEq k k0 then some v0 else lookupEq rest k

/-- `Domain._parse_choices`: the `_choices_map`, built left to right. -/
def buildMap (caseSensitive : Bool) (cs : List PyVal) : List (PyVal × PyVal) :=
  cs.foldl (fun m c => insertEq m (keyTrans caseSensitive c) c) []

/-- `Domain._has_numeric_choices` (complex choices are outside the modelled
universe). -/
def hasNumC (cs : List PyVal) : Bool :=
  cs.any fun c =>
    match c with
    | .int _ => true
    | .float _ => true
    | _ => false

/-- Simple rendering of a value for the choices display string (the exact
Python float repr is not modelled; no claim depends on this string). -/
def pyStr : PyVal → String
  | .none => "None"
  | .nan => "nan"
  | .int n => toString n
  | .float q => toString q
  | .dec q => toString q
  | .str s => s

/-- Value of a numeric choice for the natural sort.  NaN carries no value:
Python can sort a NaN-containing list without an exception, but the order it
produces is algorithm-dependent and outside the model, so such lists take
the string-form sort below. -/
def numValQ : PyVal → Option ℚ
  | .int n => some (intQ n)
  | .float q => some q
  | .dec q => some q
  | _ => Option.none

/-- `Domain._choices_str`: `sorted(choices)` — the natural order — when the
choices are mutually comparable, which in the modelled universe means all
numeric (NaN-free) or all textual; otherwise the source's `except TypeError`
branch sorts by string form.  The result is comma-joined and truncated at
200 characters. -/
def choicesDisplay (cs : List PyVal) : String :=
  let sorted :=
    if cs.all (fun c => (numValQ c).isSome) then
      (cs.mergeSort (fun a b => (numValQ a).getD 0 ≤ (numValQ b).getD 0)).map pyStr
    else if cs.all (fun c => match c with | .str _ => true | _ => false) then
      (cs.mergeSort (fun a b => pyStr a ≤ pyStr b)).map pyStr
    else (cs.map pyStr).mergeSort (fun a b => a ≤ b)
  let j := String.intercalate "," sorted
  if 200 < j.length then String.mk (j.data.take 200) ++ "..." else j

/-- `Domain.validate`: look the case-folded value up in the choice map; on a
miss, if any choice is numeric and the key is textual, parse the key with a
default `Float` field and retry; otherwise `DomainError`.  The secondary
parse swallows exactly `FieldTypeError`/`MalformedFieldError` as the source
`except` clause does. -/
def domValidate (name : Option String) (caseSensitive : Bool)
    (cs : List PyVal) (value : PyVal) : Except VErr PyVal :=
  let m := buildMap caseSensitive cs
  let k := keyTrans caseSensitive value
  match lookupEq m k with
  | some c => .ok c
  | Option.none =>
    let fail : Except VErr PyVal := .error (.domainE name value (choicesDisplay cs))
    match k with
    | .str t =>
      if hasNumC cs then
        match floatValidate Option.none {} (.str t) with
        | .ok k2 =>
          match lookupEq m k2 with
          | some c => .ok c
          | Option.none => fail
        | .error (.malformed _ _ _) => fail
        | .error (.fieldType _ _ _) => fail
        | .error e => .error e
      else fail
    | _ => fail

/-! The row pipeline (`dictreader.py`).  Rows are dict-like records with
optional keys (`csv.DictReader` files unexpected columns under the `None`
key).  Fields are carried as name/required/default plus their `parse`
function; the claims this section serves use stateless fields, so the
uniqueness state is not threaded through the pipeline. -/

/-- One declared field of a `DictReader`. -/
structure DField where
  name : String
  required : Bool
  default : PyVal
  parse : PyVal → Except VErr PyVal

/-- The error policy: `raiseE` is `errors='raise'`; `contE` covers both the
log-level strings and the callback form, which record the annotated error
and continue (a callback that itself raises is out of the modelled scope). -/
inductive EPolicy where
  | raiseE
  | contE
deriving DecidableEq

/-- A `ValidationError` annotated with the record position by
`DictReader._error_handler` (the `line_num` attribute of the underlying
iterable is absent in the model, as for any non-csv source). -/
structure AnnErr where
  err : VErr
  recordNum : ℤ
deriving DecidableEq

/-- A raw input record: keys may be `None` (unexpected trailing columns). -/
abbrev Row : Type := List (Option String × PyVal)

/-- `row.pop(None, None)`: drop the `None` key. -/
def rowPopNone (row : Row) : List (String × PyVal) :=
  row.filterMap fun kv =>
    match kv.1 with
    | some k => some (k, kv.2)
    | Option.none => Option.none

/-- One cell of the blank-row test: a whitespace-only string or `None`
(`isinstance(cell, str) and not cell.strip() or cell is None`). -/
def isBlankCell (v : PyVal) : Bool :=
  match v with
  | .str s => pyStrip s = ""
  | .none => true
  | _ => false

/-- `{k.strip(): v for k, v in row.items()}`. -/
def stripKeys (l : List (String × PyVal)) : List (String × PyVal) :=
  l.foldl (fun m kv => alInsert m (pyStrip kv.1) kv.2) []

/-- The per-field loop of `DictReader.__iter__`: look each field's raw cell
up (missing columns default to `None`), parse, store under the renamed key
on success; on failure annotate and dispatch per policy, then either record
the required-failure flag or substitute the default. -/
def fieldLoop (pol : EPolicy) (nmap : List (String × String)) (rn : ℤ)
    (cells : List (String × PyVal)) :
    List DField → List (String × PyVal) → List AnnErr → Bool →
    Except AnnErr (List (String × PyVal) × List AnnErr × Bool)
  | [], out, errs, rf => .ok (out, errs, rf)
  | f :: rest, out, errs, rf =>
    let raw := (alGet cells f.name).getD .none
    let oname := (alGet nmap f.name).getD f.name
    match f.parse raw with
    | .ok v => fieldLoop pol nmap rn cells rest (alInsert out oname v) errs rf
    | .error e =>
      let ae : AnnErr := ⟨e, rn⟩
      match pol with
      | .raiseE => .error ae
      | .contE =>
        if f.required then
          fieldLoop pol nmap rn cells rest out (errs ++ [ae]) true
        else
          fieldLoop pol nmap rn cells rest (alInsert out oname f.default) (errs ++ [ae]) rf

/-- Body of `DictReader.__iter__` for one source record: the `preprocess_row`
and `postprocess_row` hooks are the base-class identity.  The result is
`.error` when the abort policy re-raised, otherwise the reported errors
paired with the yielded record (`Option.none` when the record was skipped or
discarded). -/
def processRecord (pol : EPolicy) (fields : List DField)
    (nmap : List (String × String)) (rn : ℤ) (row : Row) :
    Except AnnErr (List AnnErr × Option (List (String × PyVal))) :=
  let cells0 := rowPopNone row
  if cells0.all (fun kv => isBlankCell kv.2) then .ok ([], Option.none)
  else
    let cells := stripKeys cells0
    match fieldLoop pol nmap rn cells fields [] [] false with
    | .error ae => .error ae
    | .ok (out, errs, rf) =>
      if rf then .ok (errs, Option.none) else .ok (errs, some out)

/-- Iteration from a given record number: yields the cleaned records, the
errors reported to the non-abort policy, and the error that aborted the
iteration under `errors='raise'` (if any). -/
def iterFrom (pol : EPolicy) (fields : List DField)
    (nmap : List (String × String)) (rn : ℤ) :
    List Row → List (List (String × PyVal)) × List AnnErr × Option AnnErr
  | [] => ([], [], Option.none)
  | row :: rest =>
    match processRecord pol fields nmap rn row with
    | .error ae => ([], [], some ae)
    | .ok (errs, out?) =>
      let t := iterFrom pol fields nmap (rn + 1) rest
      match out? with
      | some o => (o :: t.1, errs ++ t.2.1, t.2.2)
      | Option.none => (t.1, errs ++ t.2.1, t.2.2)

/-- `DictReader.__iter__` over a whole source (record numbers from 0). -/
def dictReaderIter (pol : EPolicy) (fields : List DField)
    (nmap : List (String × String)) (rows : List Row) :
    List (List (String × PyVal)) × List AnnErr × Option AnnErr :=
  iterFrom pol fields nmap 0 rows

/-! The property-binding layer (`FuzzyField.__get__`). -/

/-- Errors observable from the property layer: the `ValidationError` family
or a plain `AttributeError`, which is not part of that family. -/
inductive PyErr where
  | vErr (e : VErr)
  | attrErr (msg : String)
deriving DecidableEq

/-- Does the error derive from `ValidationError`?  (`AttributeError` is a
Python builtin outside the taxonomy of `errors.py`.) -/
def isValidationError : PyErr → Bool
  | .vErr _ => true
  | .attrErr _ => false

/-- `FuzzyField.__get__` on a (truthy) host instance whose attribute storage
is `inst`: a stored value is returned as is; an uninitialized non-required
field reads as the default; an uninitialized required field raises
`AttributeError('Uninitialised property: Owner.name')`. -/
def propGet (n : String) (ownerName : String) (required : Bool)
    (default : PyVal) (inst : List (String × PyVal)) : Except PyErr PyVal :=
  match alGet inst n with
  | some v => .ok v
  | Option.none =>
    if required then
      .error (.attrErr ("Uninitialised property: " ++ ownerName ++ "." ++ n))
    else .ok default

/-! A small heap, to state the reference-sharing behaviour of
`FuzzyField.copy`: attributes are references into a store of mutable
objects, and `copy` duplicates the reference table only. -/

/-- Heap objects: the mutable values field attributes can reference. -/
inductive HObj where
  | oSet (elems : List PyVal)
  | oBool (b : Bool)
  | oVal (v : PyVal)
  | oList (elems : List PyVal)
  | oMap (entries : List (PyVal × PyVal))
deriving DecidableEq

/-- The heap: addresses to objects. -/
abbrev Heap : Type := List (ℕ × HObj)

/-- Read a heap cell. -/
def heapGet (h : Heap) (a : ℕ) : Option HObj := alGet h a

/-- Overwrite a heap cell (mutation of the referenced object). -/
def heapSet (h : Heap) (a : ℕ) (o : HObj) : Heap := alInsert h a o

/-- An address not used by the heap. -/
def heapFresh (h : Heap) : ℕ :=
  (h.map Prod.fst).foldl max 0 + 1

/-- A field object's `__dict__`: attribute names to heap addresses. -/
abbrev FieldDict : Type := List (String × ℕ)

/-- `FuzzyField.copy`: `res.__dict__.update(self.__dict__)` shares every
attribute reference; then, iff the field is unique, `res.seen_values` is
rebound to a freshly allocated empty set. -/
def fieldCopy (h : Heap) (d : FieldDict) : Heap × FieldDict :=
  match alGet d "unique" with
  | some a =>
    match heapGet h a with
    | some (.oBool true) =>
      let na := heapFresh h
      (h ++ [(na, .oSet [])], alInsert d "seen_values" na)
    | _ => (h, d)
  | Option.none => (h, d)


/-- The spec's exemplar pattern `foo\\d`: `f`, `o`, `o`, then a digit. -/
def fooDigit : Rgx :=
  .seq (.chr 'f') (.seq (.chr 'o') (.seq (.chr 'o') .digit))

/-- The cell dictionary a record presents to the field loop. -/
def cellsOf (row : Row) : List (String × PyVal) :=
  stripKeys (rowPopNone row)

/-- The raw value a field reads from a record
(`row.get(field.name, None)`). -/
def rawOf (row : Row) (f : DField) : PyVal :=
  (alGet (cellsOf row) f.name).getD .none

/-- The output key of a field (`name_map.get(field.name, field.name)`). -/
def onameOf (nmap : List (String × String)) (f : DField) : String :=
  (alGet nmap f.name).getD f.name

/-- The spec-side matching relation of the Domain claim: the value equals a
choice after case folding, or, when the choices include numbers and the
(folded) value is textual, after the secondary float parse. -/
def specMatch (caseSensitive : Bool) (cs : List PyVal) (v c : PyVal) : Bool :=
  pyEq (keyTrans caseSensitive v) (keyTrans caseSensitive c) ||
  (hasNumC cs &&
    match keyTrans caseSensitive v with
    | .str t =>
      match floatValidate Option.none {} (.str t) with
      | .ok k2 => pyEq k2 (keyTrans caseSensitive c)
      | .error _ => false
    | _ => false)


/-- A concrete required `Float` field named `price`, as in the spec's
pipeline example. -/
def priceF : DField where
  name := "price"
  required := true
  default := .nan
  parse := fun raw =>
    fieldParseValue { name := some "price", default := .nan }
      (floatValidate (some "price") {}) [] raw

/-- A concrete non-required `String`-like field named `currency` with
default `"GBP"`, as in the spec's pipeline example. -/
def currF : DField where
  name := "currency"
  required := false
  default := .str "GBP"
  parse := fun raw =>
    fieldParseValue { name := some "currency", required := false, default := .str "GBP" }
      (stringValidate (some "currency")) [] raw


/-! Helper lemmas. -/

/-- Lengths do not grow under `dropWhile`. -/
theorem dropWhile_len_le {α : Type} (p : α → Bool) (l : List α) :
    (l.dropWhile p).length ≤ l.length := by
  induction l with
  | nil => simp
  | cons a t ih =>
    by_cases h : p a
    · simp only [List.dropWhile_cons, h, if_true]
      exact Nat.le_succ_of_le ih
    · simp [List.dropWhile_cons, h]

/-- Applying `dropWhile` twice is the same as once. -/
theorem dropWhile_idem {α : Type} (p : α → Bool) (l : List α) :
    (l.dropWhile p).dropWhile p = l.dropWhile p := by
  induction l with
  | nil => rfl
  | cons a t ih =>
    by_cases h : p a
    · simp [List.dropWhile_cons, h, ih]
    · simp [List.dropWhile_cons, h]

/-- Trailing-whitespace trimming is idempotent. -/
theorem trimEnd_idem (l : List Char) : trimEnd (trimEnd l) = trimEnd l := by
  induction l with
  | nil => rfl
  | cons c cs ih =>
    by_cases h : trimEnd cs = [] && pySpace c
    · simp [trimEnd, h]
    · simp [trimEnd, h, ih]

/-- A list with no leading whitespace keeps that property under `trimEnd`. -/
theorem dropWhile_trimEnd (l : List Char) (h : l.dropWhile pySpace = l) :
    (trimEnd l).dropWhile pySpace = trimEnd l := by
  cases l with
  | nil => rfl
  | cons c cs =>
    have hc : pySpace c = false := by
      by_contra hcc
      rw [Bool.not_eq_false] at hcc
      rw [List.dropWhile_cons, if_pos hcc] at h
      have hl := dropWhile_len_le pySpace cs
      rw [h] at hl
      simp at hl
    simp [trimEnd, hc, List.dropWhile_cons]

/-- Python `str.strip` is idempotent. -/
theorem pyStrip_idem (s : String) : pyStrip (pyStrip s) = pyStrip s := by
  show String.mk
      (trimEnd (List.dropWhile pySpace (trimEnd (List.dropWhile pySpace s.data))))
    = String.mk (trimEnd (List.dropWhile pySpace s.data))
  rw [dropWhile_trimEnd _ (dropWhile_idem pySpace s.data), trimEnd_idem]

/-- Python `==` is reflexive away from NaN. -/
theorem pyEq_refl (v : PyVal) (h : v ≠ .nan) : pyEq v v = true := by
  cases v <;> simp [pyEq] at h ⊢

/-! Claim C8. -/

/-- Claim C8: `preprocess` (the normalize step shared by every field
variant) maps each supported null-sentinel token — the NA token strings,
whitespace-only strings, and floating NaN — to the canonical null marker,
and it is idempotent on every input. -/
theorem c8_theorem :
    (∀ s, s ∈ NA_VALUES → preprocess (.str s) = .none)
  ∧ (∀ s, pyStrip s = "" → preprocess (.str s) = .none)
  ∧ preprocess .nan = .none
  ∧ (∀ x, preprocess (preprocess x) = preprocess x) := by
  refine ⟨by decide, ?_, rfl, ?_⟩
  · intro s h
    simp [preprocess, h]
    decide
  · intro x
    cases x with
    | str s =>
      by_cases h : pyStrip s ∈ NA_VALUES
      · simp [preprocess, h]
      · simp [preprocess, h, pyStrip_idem]
    | none => rfl
    | nan => rfl
    | int n => rfl
    | float q => rfl
    | dec q => rfl

/-- Claim C8 witness: the theorem applied to the token `"N/A"`, to a
whitespace-only string, and to a concrete idempotence input. -/
theorem c8_witness :
    preprocess (.str "N/A") = .none
  ∧ preprocess (.str "   ") = .none
  ∧ preprocess (preprocess (.str "  x ")) = preprocess (.str "  x ") :=
  ⟨c8_theorem.1 "N/A" (by decide),
   c8_theorem.2.1 "   " (by decide),
   c8_theorem.2.2.2 (.str "  x ")⟩

/-! Claim C3. -/

/-- Claim C3 (code bug evaluation): `".0"` denotes the decimal number 0
(`parseNum` accepts it), but the pre-parse stripping of trailing zeros turns
it into `"."`, which fails to parse, so `Decimal().parse(".0")` raises
`MalformedFieldError` instead of returning 0. -/
theorem c3_theorem :
    parseNum ".0".data = some 0
  ∧ beautify ".0" = "."
  ∧ decParse (.str ".0") = .error (.malformed Option.none (.str ".0") "number") := by
  decide

/-! Claim C4. -/

/-- Claim C4 counterexample: `Percentage().parse("-5.2%")` computes
`float("-5.2") / 100` in double arithmetic, which is not the double denoted
by the literal `-0.052` (they differ in the last bit, as the explicit dyadic
values show), so the claimed equality with `-0.052` is false. -/
theorem c4_counterexample :
    pctParse (.str "-5.2%") = .ok (.float (f64 (qdiv (f64 (mkRat (-26) 5)) (intQ 100))))
  ∧ f64 (qdiv (f64 (mkRat (-26) 5)) (intQ 100)) = mkRat (-3746994889972253) 72057594037927936
  ∧ f64 (mkRat (-13) 250) = mkRat (-7493989779944505) 144115188075855872
  ∧ f64 (qdiv (f64 (mkRat (-26) 5)) (intQ 100)) ≠ f64 (mkRat (-13) 250) := by
  decide

/-- Claim C4 (amended): the numeric exemplars hold as stated, except that
`Percentage().parse("-5.2%")` equals `-5.2 / 100` as computed in double
arithmetic (the exact value `-0.052` up to one final-bit rounding), not the
double of the literal `-0.052`. -/
theorem c4_theorem :
    floatParse (.str "(1,000.1)") = .ok (.float (f64 (mkRat (-10001) 10)))
  ∧ floatParse (.str "- 1,000.1 -") = .ok (.float (f64 (mkRat (-10001) 10)))
  ∧ intParse (.str "1.2e1") = .ok (.int 12)
  ∧ intParse (.str "1.5") = .error (.malformed Option.none (.str "1.5") "integer")
  ∧ pctParse (.str "-5.2%") = .ok (.float (f64 (qdiv (f64 (mkRat (-26) 5)) (intQ 100))))
  ∧ intParse (.str "9999999999999999") = .ok (.int 9999999999999999) := by
  decide

/-- Unfold `fieldParse` when preprocessing keeps the value and `validate`
succeeds. -/
theorem fieldParse_validate (cfg : FieldCfg) (validate : PyVal → Except VErr PyVal)
    (seen : List PyVal) (raw v : PyVal)
    (hp : preprocess raw ≠ .none) (hval : validate (preprocess raw) = .ok v) :
    fieldParse cfg validate seen raw = postprocess cfg seen v := by
  unfold fieldParse
  rw [if_neg hp, hval]
  rfl

/-! Claim C2. -/

/-- Claim C2 counterexample: for a unique field with default `123`,
explicitly parsing the value `123` twice raises `DuplicateError` on the
second parse, and the first parse stores the default in the seen set — the
claimed default exemption applies only to null inputs. -/
theorem c2_counterexample :
    fieldParse { required := false, default := .int 123, unique := true }
        Except.ok [] (.int 123) = .ok (.int 123, [.int 123])
  ∧ fieldParse { required := false, default := .int 123, unique := true }
        Except.ok [.int 123] (.int 123)
      = .error (.duplicate Option.none (.int 123)) := by
  decide

/-- Claim C2 (amended): for a unique field, a null input never touches the
uniqueness state (it yields the default, or `MissingFieldError` when
required), and parsing the same raw value twice raises `DuplicateError` on
the second parse whenever the first parse validated it to a non-null value;
an explicit non-null value equal to the default is tracked like any other. -/
theorem c2_theorem (cfg : FieldCfg) (validate : PyVal → Except VErr PyVal)
    (seen seen' : List PyVal) (raw v : PyVal) (hu : cfg.unique = true) :
    (preprocess raw = .none →
      fieldParse cfg validate seen raw =
        if cfg.required then .error (.missing cfg.name) else .ok (cfg.default, seen))
  ∧ (preprocess raw ≠ .none → validate (preprocess raw) = .ok v →
      v ≠ .none → v ≠ .nan →
      fieldParse cfg validate seen raw = .ok (v, seen') →
      fieldParse cfg validate seen' raw = .error (.duplicate cfg.name v)) := by
  constructor
  · intro hp
    have h1 : fieldParse cfg validate seen raw = postprocess cfg seen .none := by
      unfold fieldParse
      rw [if_pos hp, hp]
      rfl
    rw [h1]
    simp [postprocess]
  · intro hp hval hv hn hfirst
    rw [fieldParse_validate cfg validate seen raw v hp hval] at hfirst
    rw [fieldParse_validate cfg validate seen' raw v hp hval]
    rw [postprocess, if_neg hv, hu] at hfirst
    rw [postprocess, if_neg hv, hu]
    simp only [if_true] at hfirst ⊢
    by_cases hmem : seenMem seen v
    · simp [hmem] at hfirst
    · simp only [hmem, Bool.false_eq_true, if_false] at hfirst
      have hseen : seen' = seen ++ [v] := by
        rw [Except.ok.injEq, Prod.mk.injEq] at hfirst
        exact hfirst.2.symm
      subst hseen
      have hm2 : seenMem (seen ++ [v]) v = true := by
        simp [seenMem, pyEq_refl v hn]
      simp [hm2]

/-- Claim C2 witness: the amended theorem applied to a concrete unique
field, a concrete duplicated value, and a concrete null input. -/
theorem c2_witness :
    fieldParse { unique := true } Except.ok [.int 7] (.int 7)
      = .error (.duplicate Option.none (.int 7))
  ∧ fieldParse { unique := true } Except.ok [] (.str "N/A")
      = .error (.missing Option.none) :=
  ⟨( c2_theorem { unique := true } Except.ok [] [.int 7] (.int 7) (.int 7) rfl).2
      (by decide) (by decide) (by decide) (by decide) (by decide),
   ( c2_theorem { unique := true } Except.ok [] [] (.str "N/A") .none rfl).1 (by decide)⟩

/-! Claim C9. -/

/-- Claim C9 counterexample: reading an uninitialized required property
raises `AttributeError`, which is a Python builtin, not a member of the
`ValidationError` hierarchy of `errors.py` — so the uninitialized-property
error cannot be caught via the common `ValidationError` ancestor. -/
theorem c9_counterexample :
    propGet "x" "C" true .none [] = .error (.attrErr "Uninitialised property: C.x")
  ∧ isValidationError (.attrErr "Uninitialised property: C.x") = false
  ∧ (PyErr.attrErr "Uninitialised property: C.x") ≠ .vErr (.missing (some "x")) := by
  decide

/-- Claim C9 (amended): reading an unassigned bound property returns the
default when the field is not required, and fails with
`AttributeError('Uninitialised property: Owner.name')` when it is required;
that error is distinct from `MissingFieldError` but does not derive from
`ValidationError`. -/
theorem c9_theorem (n ownerName : String) (dflt : PyVal)
    (inst : List (String × PyVal)) (h : alGet inst n = Option.none) :
    propGet n ownerName false dflt inst = .ok dflt
  ∧ propGet n ownerName true dflt inst =
      .error (.attrErr ("Uninitialised property: " ++ ownerName ++ "." ++ n))
  ∧ ∀ msg, isValidationError (.attrErr msg) = false
          ∧ (PyErr.attrErr msg) ≠ .vErr (.missing (some n)) := by
  refine ⟨?_, ?_, fun msg => ⟨rfl, by simp⟩⟩
  · simp [propGet, h]
  · simp [propGet, h]

/-- Claim C9 witness: the amended theorem applied to a concrete unassigned
property. -/
theorem c9_witness :
    propGet "y" "Host" false (.str "dflt") [] = .ok (.str "dflt")
  ∧ propGet "y" "Host" true (.str "dflt") [] =
      .error (.attrErr ("Uninitialised property: " ++ "Host" ++ "." ++ "y")) :=
  ⟨( c9_theorem "y" "Host" (.str "dflt") [] (by decide)).1,
   ( c9_theorem "y" "Host" (.str "dflt") [] (by decide)).2.1⟩

/-! Association list and heap lemmas for Claim C10. -/

/-- Inserting at a key makes it readable. -/
theorem alGet_insert_self {κ α : Type} [DecidableEq κ]
    (m : List (κ × α)) (k : κ) (v : α) : alGet (alInsert m k v) k = some v := by
  induction m with
  | nil => simp [alInsert, alGet]
  | cons p r ih =>
    by_cases h : p.1 = k
    · simp [alInsert, h, alGet]
    · simp only [alInsert]
      rw [if_neg ?_]
      · simp only [alGet]
        rw [if_neg (fun hh => h hh.symm)]
        exact ih
      · exact fun hh => h (by cases p; exact hh)

/-- Inserting at another key does not change a lookup. -/
theorem alGet_insert_ne {κ α : Type} [DecidableEq κ]
    (m : List (κ × α)) (k k' : κ) (v : α) (h : k' ≠ k) :
    alGet (alInsert m k v) k' = alGet m k' := by
  induction m with
  | nil => simp [alInsert, alGet, h]
  | cons p r ih =>
    by_cases hp : p.1 = k
    · cases p with
      | mk k0 v0 =>
        simp only at hp
        subst hp
        simp only [alInsert, if_pos rfl, alGet]
        rw [if_neg h, if_neg h]
    · cases p with
      | mk k0 v0 =>
        simp only at hp
        simp only [alInsert, if_neg hp, alGet]
        by_cases hk : k' = k0
        · rw [if_pos hk, if_pos hk]
        · rw [if_neg hk, if_neg hk]
          exact ih

/-- A successful lookup survives appending. -/
theorem alGet_append_some {κ α : Type} [DecidableEq κ]
    (m m2 : List (κ × α)) (k : κ) (v : α) (h : alGet m k = some v) :
    alGet (m ++ m2) k = some v := by
  induction m with
  | nil => simp [alGet] at h
  | cons p r ih =>
    cases p with
    | mk k0 v0 =>
      simp only [alGet] at h
      by_cases hk : k = k0
      · rw [if_pos hk] at h
        simp only [List.cons_append, alGet, if_pos hk]
        exact h
      · rw [if_neg hk] at h
        simp only [List.cons_append, alGet, if_neg hk]
        exact ih h

/-- A failed lookup defers to the appended tail. -/
theorem alGet_append_none {κ α : Type} [DecidableEq κ]
    (m m2 : List (κ × α)) (k : κ) (h : alGet m k = Option.none) :
    alGet (m ++ m2) k = alGet m2 k := by
  induction m with
  | nil => simp
  | cons p r ih =>
    cases p with
    | mk k0 v0 =>
      simp only [alGet] at h
      by_cases hk : k = k0
      · rw [if_pos hk] at h
        simp at h
      · rw [if_neg hk] at h
        simp only [List.cons_append, alGet, if_neg hk]
        exact ih h

/-- The accumulator bounds a max fold from below. -/
theorem foldl_max_init (l : List ℕ) (acc : ℕ) : acc ≤ l.foldl max acc := by
  induction l generalizing acc with
  | nil => simp
  | cons a t ih => exact le_trans (le_max_left acc a) (ih (max acc a))

/-- Every member bounds a max fold from below. -/
theorem mem_le_foldl_max (l : List ℕ) (acc : ℕ) (x : ℕ) (hx : x ∈ l) :
    x ≤ l.foldl max acc := by
  induction l generalizing acc with
  | nil => simp at hx
  | cons a t ih =>
    rcases List.mem_cons.mp hx with h | h
    · subst h
      exact le_trans (le_max_right acc x) (foldl_max_init t (max acc x))
    · exact ih (max acc a) h

/-- A successful lookup's key occurs in the key list. -/
theorem alGet_some_mem_keys {κ α : Type} [DecidableEq κ]
    (m : List (κ × α)) (k : κ) (v : α) (h : alGet m k = some v) :
    k ∈ m.map Prod.fst := by
  induction m with
  | nil => simp [alGet] at h
  | cons p r ih =>
    cases p with
    | mk k0 v0 =>
      simp only [alGet] at h
      by_cases hk : k = k0
      · simp [hk]
      · rw [if_neg hk] at h
        simp only [List.map_cons, List.mem_cons]
        exact Or.inr (ih h)

/-- The fresh address is unused. -/
theorem heapGet_fresh (h : Heap) : heapGet h (heapFresh h) = Option.none := by
  cases hx : heapGet h (heapFresh h) with
  | none => rfl
  | some o =>
    have hmem := alGet_some_mem_keys h (heapFresh h) o hx
    have hle := mem_le_foldl_max (h.map Prod.fst) 0 (heapFresh h) hmem
    simp only [heapFresh] at hle
    omega

/-! Claim C10. -/

/-- Claim C10: `FuzzyField.copy` is shallow — every attribute reference of
the copy other than `seen_values` is the original's very address (so a
mutation through the copy is readable through the original), old heap
objects are untouched, and exactly when `unique` is true the copy's
`seen_values` is rebound to a fresh empty set; with `unique` false the copy
shares everything. -/
theorem c10_theorem (h : Heap) (d : FieldDict) (ua : ℕ)
    (hu : alGet d "unique" = some ua)
    (hb : heapGet h ua = some (.oBool true)) :
    (∀ k, k ≠ "seen_values" → alGet (fieldCopy h d).2 k = alGet d k)
  ∧ alGet (fieldCopy h d).2 "seen_values" = some (heapFresh h)
  ∧ heapGet (fieldCopy h d).1 (heapFresh h) = some (.oSet [])
  ∧ heapGet h (heapFresh h) = Option.none
  ∧ (∀ a o, heapGet h a = some o → heapGet (fieldCopy h d).1 a = some o)
  ∧ (∀ k a, k ≠ "seen_values" → alGet d k = some a → ∀ o : HObj,
      alGet (fieldCopy h d).2 k = some a ∧
      heapGet (heapSet (fieldCopy h d).1 a o) a = some o)
  ∧ (∀ (h2 : Heap) (d2 : FieldDict) (a2 : ℕ), alGet d2 "unique" = some a2 →
      heapGet h2 a2 = some (.oBool false) → fieldCopy h2 d2 = (h2, d2)) := by
  have hc : fieldCopy h d =
      (h ++ [(heapFresh h, .oSet [])], alInsert d "seen_values" (heapFresh h)) := by
    simp only [fieldCopy, hu, hb]
  refine ⟨?_, ?_, ?_, heapGet_fresh h, ?_, ?_, ?_⟩
  · intro k hk
    rw [hc]
    exact alGet_insert_ne d "seen_values" k (heapFresh h) hk
  · rw [hc]
    exact alGet_insert_self d "seen_values" (heapFresh h)
  · rw [hc]
    show alGet (h ++ [(heapFresh h, HObj.oSet [])]) (heapFresh h) = some (.oSet [])
    rw [alGet_append_none h _ _ (heapGet_fresh h)]
    simp [alGet]
  · intro a o ha
    rw [hc]
    exact alGet_append_some h _ a o ha
  · intro k a hk ha o
    rw [hc]
    exact ⟨by rw [alGet_insert_ne d "seen_values" k (heapFresh h) hk]; exact ha,
           alGet_insert_self _ a o⟩
  · intro h2 d2 a2 hu2 hb2
    simp only [fieldCopy, hu2, hb2]

/-- Claim C10 witness: the theorem applied to a concrete unique Domain-like
field object whose `choices` attribute is shared by reference. -/
theorem c10_witness :
    alGet (fieldCopy [(0, .oBool true), (1, .oSet [.int 1]), (2, .oList [.str "a"])]
        [("unique", 0), ("seen_values", 1), ("choices", 2)]).2 "choices"
      = some 2 := by
  have := ( c10_theorem
      [(0, .oBool true), (1, .oSet [.int 1]), (2, .oList [.str "a"])]
      [("unique", 0), ("seen_values", 1), ("choices", 2)] 0
      (by decide) (by decide)).1 "choices" (by decide)
  rw [this]
  decide

/-! Claim C7. -/

/-- Claim C7 counterexample: a record whose only cell is the NA token
`"N/A"` — a null sentinel (`preprocess` maps it to null) — is not skipped
silently: the blank-row test of `DictReader.__iter__` only treats
whitespace-only strings and `None` as blank, so the record reaches the
required field and one `MissingFieldError` is reported for it. -/
theorem c7_counterexample :
    preprocess (.str "N/A") = .none
  ∧ isBlankCell (.str "N/A") = false
  ∧ dictReaderIter .contE
      [⟨"a", true, .none,
        fun raw => fieldParseValue ⟨some "a", true, .none, false⟩
          (stringValidate (some "a")) [] raw⟩]
      [] [[(some "a", .str "N/A")]]
      = ([], [⟨.missing (some "a"), 0⟩], Option.none) := by
  decide

/-- Claim C7 (amended): the pipeline silently skips — yielding nothing and
reporting no error, whatever the fields and policy are — exactly the records
in which every present cell is a whitespace-only string or `None`; NA token
strings and floating NaN cells do not make a record blank. -/
theorem c7_theorem (pol : EPolicy) (fields : List DField)
    (nmap : List (String × String)) (rn : ℤ) (row : Row)
    (h : ∀ kv ∈ rowPopNone row, isBlankCell kv.2 = true) :
    processRecord pol fields nmap rn row = .ok ([], Option.none) := by
  unfold processRecord
  have hb : (rowPopNone row).all (fun kv => isBlankCell kv.2) = true :=
    List.all_eq_true.mpr h
  simp [hb]

/-- Claim C7 witness: the amended theorem applied to a concrete blank
record (a whitespace cell, a null cell, and a discarded no-header cell)
against a required field that would fail if parsed. -/
theorem c7_witness :
    processRecord .contE
      [⟨"a", true, .none,
        fun raw => fieldParseValue ⟨some "a", true, .none, false⟩
          (stringValidate (some "a")) [] raw⟩]
      [] 0 [(some "a", .str "   "), (some "b", .none), (Option.none, .int 5)]
      = .ok ([], Option.none) :=
  c7_theorem .contE _ [] 0 _ (by decide)

/-! Claim C1. -/

/-- Claim C1 counterexample: `RegEx("foo\\d").parse("foo3x")` succeeds and
returns `"foo3x"` even though the pattern does not match the whole string —
the source anchors only at the start (`re.match`), not at both ends — so
"parse succeeds iff the pattern matches s in full" is false. -/
theorem c1_counterexample :
    fieldParseValue {} (regexValidate Option.none ⟨"foo\\d", fooDigit⟩) []
        (.str "foo3x") = .ok (.str "foo3x")
  ∧ fullMatch fooDigit "foo3x" = false := by
  decide

/-- Claim C1 (amended): for every pattern and pre-stripped non-sentinel
string `s`, `RegEx(p).parse(s)` returns `s` iff the pattern matches some
initial segment of `s` (anchored at the start only); otherwise it raises
`MalformedFieldError` quoting the pattern.  Every non-null non-string input
raises `FieldTypeError`, and every null input (None, NaN, or a string that
normalizes to a null sentinel) is treated as absent, raising
`MissingFieldError` under the field's default `required=True`. -/
theorem c1_theorem (pstr : String) (r : Rgx) (s : String)
    (hs : pyStrip s = s) (hna : ¬ s ∈ NA_VALUES) :
    (startMatch r s.data = true →
      fieldParseValue {} (regexValidate Option.none ⟨pstr, r⟩) [] (.str s)
        = .ok (.str s))
  ∧ (startMatch r s.data = false →
      fieldParseValue {} (regexValidate Option.none ⟨pstr, r⟩) [] (.str s)
        = .error (.malformed Option.none (.str s) ("'" ++ pstr ++ "'")))
  ∧ (∀ w : PyVal, (∀ t, w ≠ .str t) → w ≠ .none → w ≠ .nan →
      fieldParseValue {} (regexValidate Option.none ⟨pstr, r⟩) [] w
        = .error (.fieldType Option.none w "string"))
  ∧ (∀ w : PyVal, preprocess w = .none →
      fieldParseValue {} (regexValidate Option.none ⟨pstr, r⟩) [] w
        = .error (.missing Option.none)) := by
  have hpre : preprocess (.str s) = .str s := by
    simp [preprocess, hs, hna]
  refine ⟨?_, ?_, ?_, ?_⟩
  · intro hm
    rw [fieldParseValue, fieldParse_validate _ _ _ _ (.str s)
          (by rw [hpre]; simp) (by rw [hpre]; simp [regexValidate, hm])]
    simp [postprocess]
    rfl
  · intro hm
    rw [fieldParseValue]
    unfold fieldParse
    rw [if_neg (by rw [hpre]; simp), hpre]
    simp only [regexValidate, hm, Bool.false_eq_true, if_false]
    rfl
  · intro w hw hw0 hwn
    cases w with
    | str t => exact absurd rfl (hw t)
    | none => exact absurd rfl hw0
    | nan => exact absurd rfl hwn
    | int n =>
      rw [fieldParseValue]
      unfold fieldParse
      rw [if_neg (by simp [preprocess, isnull])]
      show Except.map Prod.fst
          (regexValidate Option.none ⟨pstr, r⟩ (preprocess (.int n)) >>= fun y =>
            postprocess {} [] y) = _
      simp only [preprocess, isnull, regexValidate]
      rfl
    | float q =>
      rw [fieldParseValue]
      unfold fieldParse
      rw [if_neg (by simp [preprocess, isnull])]
      show Except.map Prod.fst
          (regexValidate Option.none ⟨pstr, r⟩ (preprocess (.float q)) >>= fun y =>
            postprocess {} [] y) = _
      simp only [preprocess, isnull, regexValidate]
      rfl
    | dec q =>
      rw [fieldParseValue]
      unfold fieldParse
      rw [if_neg (by simp [preprocess, isnull])]
      show Except.map Prod.fst
          (regexValidate Option.none ⟨pstr, r⟩ (preprocess (.dec q)) >>= fun y =>
            postprocess {} [] y) = _
      simp only [preprocess, isnull, regexValidate]
      rfl
  · intro w hp
    rw [fieldParseValue]
    unfold fieldParse
    rw [if_pos hp, hp]
    rfl

/-- Claim C1 witness: the amended theorem applied to the pattern `foo\d`
with the spec's failing string `"xfoo3"`, a matching string `"foo3"`, the
non-string inputs `1`, `1.0` and `Decimal(1)`, and the null inputs `None`
and `"N/A"`. -/
theorem c1_witness :
    fieldParseValue {} (regexValidate Option.none ⟨"foo\\d", fooDigit⟩) []
        (.str "xfoo3")
      = .error (.malformed Option.none (.str "xfoo3") ("'" ++ "foo\\d" ++ "'"))
  ∧ fieldParseValue {} (regexValidate Option.none ⟨"foo\\d", fooDigit⟩) []
        (.str "foo3") = .ok (.str "foo3")
  ∧ fieldParseValue {} (regexValidate Option.none ⟨"foo\\d", fooDigit⟩) []
        (.int 1) = .error (.fieldType Option.none (.int 1) "string")
  ∧ fieldParseValue {} (regexValidate Option.none ⟨"foo\\d", fooDigit⟩) []
        (.float 1) = .error (.fieldType Option.none (.float 1) "string")
  ∧ fieldParseValue {} (regexValidate Option.none ⟨"foo\\d", fooDigit⟩) []
        (.dec 1) = .error (.fieldType Option.none (.dec 1) "string")
  ∧ fieldParseValue {} (regexValidate Option.none ⟨"foo\\d", fooDigit⟩) []
        .none = .error (.missing Option.none)
  ∧ fieldParseValue {} (regexValidate Option.none ⟨"foo\\d", fooDigit⟩) []
        (.str "N/A") = .error (.missing Option.none) :=
  ⟨( c1_theorem "foo\\d" fooDigit "xfoo3" (by decide) (by decide)).2.1 (by decide),
   ( c1_theorem "foo\\d" fooDigit "foo3" (by decide) (by decide)).1 (by decide),
   ( c1_theorem "foo\\d" fooDigit "xfoo3" (by decide) (by decide)).2.2.1 (.int 1)
     (by intro t h; cases h) (by decide) (by decide),
   ( c1_theorem "foo\\d" fooDigit "xfoo3" (by decide) (by decide)).2.2.1 (.float 1)
     (by intro t h; cases h) (by decide) (by decide),
   ( c1_theorem "foo\\d" fooDigit "xfoo3" (by decide) (by decide)).2.2.1 (.dec 1)
     (by intro t h; cases h) (by decide) (by decide),
   ( c1_theorem "foo\\d" fooDigit "xfoo3" (by decide) (by decide)).2.2.2 .none
     (by decide),
   ( c1_theorem "foo\\d" fooDigit "xfoo3" (by decide) (by decide)).2.2.2
     (.str "N/A") (by decide)⟩

/-! Field-loop lemmas for Claim C5. -/

/-- The field loop splits over list append. -/
theorem fieldLoop_append (pol : EPolicy) (nmap : List (String × String))
    (rn : ℤ) (cells : List (String × PyVal)) (as bs : List DField)
    (out : List (String × PyVal)) (errs : List AnnErr) (rf : Bool) :
    fieldLoop pol nmap rn cells (as ++ bs) out errs rf =
      match fieldLoop pol nmap rn cells as out errs rf with
      | .ok (o, e, r) => fieldLoop pol nmap rn cells bs o e r
      | .error x => .error x := by
  induction as generalizing out errs rf with
  | nil => simp [fieldLoop]
  | cons f as' ih =>
    simp only [List.cons_append, fieldLoop]
    cases hp : f.parse ((alGet cells f.name).getD .none) with
    | ok v => exact ih _ _ _
    | error e =>
      cases pol with
      | raiseE => rfl
      | contE =>
        by_cases hr : f.required
        · simp only [hr, if_true]
          exact ih _ _ _
        · simp only [hr, Bool.false_eq_true, if_false]
          exact ih _ _ _

/-- Under the continue policy the loop never raises. -/
theorem fieldLoop_cont_ok (nmap : List (String × String)) (rn : ℤ)
    (cells : List (String × PyVal)) (fs : List DField)
    (out : List (String × PyVal)) (errs : List AnnErr) (rf : Bool) :
    ∃ o e r, fieldLoop .contE nmap rn cells fs out errs rf = .ok (o, e, r) := by
  induction fs generalizing out errs rf with
  | nil => exact ⟨out, errs, rf, rfl⟩
  | cons f fs' ih =>
    simp only [fieldLoop]
    cases hp : f.parse ((alGet cells f.name).getD .none) with
    | ok v => exact ih _ _ _
    | error e =>
      by_cases hr : f.required
      · simp only [hr, if_true]
        exact ih _ _ _
      · simp only [hr, Bool.false_eq_true, if_false]
        exact ih _ _ _

/-- The loop only appends to the reported error list. -/
theorem fieldLoop_errs_mono (nmap : List (String × String)) (rn : ℤ)
    (cells : List (String × PyVal)) (fs : List DField)
    (out o : List (String × PyVal)) (errs e : List AnnErr) (rf r : Bool)
    (h : fieldLoop .contE nmap rn cells fs out errs rf = .ok (o, e, r)) :
    ∃ t, e = errs ++ t := by
  induction fs generalizing out errs rf with
  | nil =>
    simp only [fieldLoop, Except.ok.injEq, Prod.mk.injEq] at h
    exact ⟨[], by rw [← h.2.1, List.append_nil]⟩
  | cons f fs' ih =>
    simp only [fieldLoop] at h
    cases hp : f.parse ((alGet cells f.name).getD .none) with
    | ok v =>
      simp only [hp] at h
      exact ih _ _ _ h
    | error x =>
      simp only [hp] at h
      by_cases hr : f.required
      · rw [if_pos hr] at h
        rcases ih _ _ _ h with ⟨t, ht⟩
        exact ⟨⟨x, rn⟩ :: t, by rw [ht, List.append_assoc]; rfl⟩
      · rw [if_neg hr] at h
        rcases ih _ _ _ h with ⟨t, ht⟩
        exact ⟨⟨x, rn⟩ :: t, by rw [ht, List.append_assoc]; rfl⟩

/-- Every field whose parse fails has its annotated error reported. -/
theorem fieldLoop_err_mem (nmap : List (String × String)) (rn : ℤ)
    (cells : List (String × PyVal)) (fs : List DField)
    (out o : List (String × PyVal)) (errs e : List AnnErr) (rf r : Bool)
    (h : fieldLoop .contE nmap rn cells fs out errs rf = .ok (o, e, r)) :
    ∀ f ∈ fs, ∀ x, f.parse ((alGet cells f.name).getD .none) = .error x →
      (⟨x, rn⟩ : AnnErr) ∈ e := by
  induction fs generalizing out errs rf with
  | nil => intro f hf; simp at hf
  | cons g fs' ih =>
    intro f hf x hx
    simp only [fieldLoop] at h
    rcases List.mem_cons.mp hf with hfe | hfm
    · subst hfe
      simp only [hx] at h
      by_cases hr : f.required
      · rw [if_pos hr] at h
        rcases fieldLoop_errs_mono _ _ _ _ _ _ _ _ _ _ h with ⟨t, ht⟩
        rw [ht]
        simp
      · rw [if_neg hr] at h
        rcases fieldLoop_errs_mono _ _ _ _ _ _ _ _ _ _ h with ⟨t, ht⟩
        rw [ht]
        simp
    · cases hp : g.parse ((alGet cells g.name).getD .none) with
      | ok v =>
        simp only [hp] at h
        exact ih _ _ _ h f hfm x hx
      | error y =>
        simp only [hp] at h
        by_cases hr : g.required
        · rw [if_pos hr] at h
          exact ih _ _ _ h f hfm x hx
        · rw [if_neg hr] at h
          exact ih _ _ _ h f hfm x hx

/-- The required-failure flag is set exactly by a failing required field. -/
theorem fieldLoop_rf (nmap : List (String × String)) (rn : ℤ)
    (cells : List (String × PyVal)) (fs : List DField)
    (out o : List (String × PyVal)) (errs e : List AnnErr) (rf r : Bool)
    (h : fieldLoop .contE nmap rn cells fs out errs rf = .ok (o, e, r)) :
    r = true ↔
      (rf = true ∨ ∃ f ∈ fs, f.required = true ∧
        ∃ x, f.parse ((alGet cells f.name).getD .none) = .error x) := by
  induction fs generalizing out errs rf with
  | nil =>
    simp only [fieldLoop, Except.ok.injEq, Prod.mk.injEq] at h
    rw [← h.2.2]
    simp
  | cons g fs' ih =>
    simp only [fieldLoop] at h
    cases hp : g.parse ((alGet cells g.name).getD .none) with
    | ok v =>
      simp only [hp] at h
      rw [ih _ _ _ h]
      constructor
      · rintro (hrf | ⟨f, hf, hreq, x, hx⟩)
        · exact Or.inl hrf
        · exact Or.inr ⟨f, List.mem_cons_of_mem g hf, hreq, x, hx⟩
      · rintro (hrf | ⟨f, hf, hreq, x, hx⟩)
        · exact Or.inl hrf
        · rcases List.mem_cons.mp hf with hfe | hfm
          · subst hfe
            rw [hp] at hx
            cases hx
          · exact Or.inr ⟨f, hfm, hreq, x, hx⟩
    | error y =>
      simp only [hp] at h
      by_cases hr : g.required
      · rw [if_pos hr] at h
        rw [ih _ _ _ h]
        constructor
        · intro _
          exact Or.inr ⟨g, List.mem_cons_self g fs', hr, y, hp⟩
        · intro _
          exact Or.inl rfl
      · rw [if_neg hr] at h
        rw [ih _ _ _ h]
        constructor
        · rintro (hrf | ⟨f, hf, hreq, x, hx⟩)
          · exact Or.inl hrf
          · exact Or.inr ⟨f, List.mem_cons_of_mem g hf, hreq, x, hx⟩
        · rintro (hrf | ⟨f, hf, hreq, x, hx⟩)
          · exact Or.inl hrf
          · rcases List.mem_cons.mp hf with hfe | hfm
            · subst hfe
              exact absurd hreq (by simpa using hr)
            · exact Or.inr ⟨f, hfm, hreq, x, hx⟩

/-- A key no remaining field writes to keeps its value through the loop. -/
theorem fieldLoop_out_skip (nmap : List (String × String)) (rn : ℤ)
    (cells : List (String × PyVal)) (fs : List DField)
    (out o : List (String × PyVal)) (errs e : List AnnErr) (rf r : Bool)
    (h : fieldLoop .contE nmap rn cells fs out errs rf = .ok (o, e, r))
    (k : String) (hk : ∀ f ∈ fs, onameOf nmap f ≠ k) :
    alGet o k = alGet out k := by
  induction fs generalizing out errs rf with
  | nil =>
    simp only [fieldLoop, Except.ok.injEq, Prod.mk.injEq] at h
    rw [← h.1]
  | cons g fs' ih =>
    have hg : onameOf nmap g ≠ k := hk g (List.mem_cons_self g fs')
    have hk' : ∀ f ∈ fs', onameOf nmap f ≠ k := fun f hf => hk f (List.mem_cons_of_mem g hf)
    simp only [fieldLoop] at h
    cases hp : g.parse ((alGet cells g.name).getD .none) with
    | ok v =>
      simp only [hp] at h
      rw [ih _ _ _ h hk']
      exact alGet_insert_ne out _ k v (fun hh => hg hh.symm)
    | error y =>
      simp only [hp] at h
      by_cases hr : g.required
      · rw [if_pos hr] at h
        exact ih _ _ _ h hk'
      · rw [if_neg hr] at h
        rw [ih _ _ _ h hk']
        exact alGet_insert_ne out _ k g.default (fun hh => hg hh.symm)

/-- Fields that all parse successfully report nothing and leave the flag. -/
theorem fieldLoop_all_ok (pol : EPolicy) (nmap : List (String × String))
    (rn : ℤ) (cells : List (String × PyVal)) (fs : List DField)
    (out : List (String × PyVal)) (errs : List AnnErr) (rf : Bool)
    (h : ∀ f ∈ fs, ∃ v, f.parse ((alGet cells f.name).getD .none) = .ok v) :
    ∃ o, fieldLoop pol nmap rn cells fs out errs rf = .ok (o, errs, rf) := by
  induction fs generalizing out with
  | nil => exact ⟨out, rfl⟩
  | cons g fs' ih =>
    rcases h g (List.mem_cons_self g fs') with ⟨v, hv⟩
    simp only [fieldLoop, hv]
    exact ih _ (fun f hf => h f (List.mem_cons_of_mem g hf))

/-! Claim C5. -/

/-- Claim C5: in the row pipeline, under a non-abort policy a failing
required field discards the record while every field of the record is still
parsed and every failure is reported annotated with the record position; a
failing non-required field has its default substituted under its output key
and the record is still yielded; and under the abort policy the first
error propagates to the caller and stops the iteration. -/
theorem c5_theorem (fields : List DField) (nmap : List (String × String))
    (rn : ℤ) (row : Row)
    (hb : (rowPopNone row).all (fun kv => isBlankCell kv.2) = false) :
    ((∃ f ∈ fields, f.required = true ∧ ∃ x, f.parse (rawOf row f) = .error x) →
      ∃ errs, processRecord .contE fields nmap rn row = .ok (errs, Option.none) ∧
        ∀ g ∈ fields, ∀ x, g.parse (rawOf row g) = .error x →
          (⟨x, rn⟩ : AnnErr) ∈ errs)
  ∧ (∀ pre f post, fields = pre ++ f :: post → f.required = false →
      (∀ g ∈ fields, g.required = true → ∀ x, g.parse (rawOf row g) ≠ .error x) →
      ∀ x, f.parse (rawOf row f) = .error x →
      (∀ g ∈ post, onameOf nmap g ≠ onameOf nmap f) →
      ∃ errs out, processRecord .contE fields nmap rn row = .ok (errs, some out) ∧
        alGet out (onameOf nmap f) = some f.default)
  ∧ (∀ pre f post x rest, fields = pre ++ f :: post →
      (∀ g ∈ pre, ∃ v, g.parse (rawOf row g) = .ok v) →
      f.parse (rawOf row f) = .error x →
      iterFrom .raiseE fields nmap rn (row :: rest) = ([], [], some ⟨x, rn⟩)) := by
  refine ⟨?_, ?_, ?_⟩
  · rintro ⟨f, hf, hreq, x, hx⟩
    obtain ⟨o, e, r, hloop⟩ :=
      fieldLoop_cont_ok nmap rn (stripKeys (rowPopNone row)) fields [] [] false
    have hr : r = true :=
      (fieldLoop_rf nmap rn _ fields [] o [] e false r hloop).mpr
        (Or.inr ⟨f, hf, hreq, x, hx⟩)
    refine ⟨e, ?_, ?_⟩
    · simp only [processRecord, hb, Bool.false_eq_true, if_false, hloop, hr, if_true]
    · intro g hg y hy
      exact fieldLoop_err_mem nmap rn _ fields [] o [] e false r hloop g hg y hy
  · rintro pre f post hsplit hreq hnone x hx hpost
    obtain ⟨o1, e1, r1, h1⟩ :=
      fieldLoop_cont_ok nmap rn (stripKeys (rowPopNone row)) pre [] [] false
    obtain ⟨o2, e2, r2, h2⟩ :=
      fieldLoop_cont_ok nmap rn (stripKeys (rowPopNone row)) post
        (alInsert o1 (onameOf nmap f) f.default) (e1 ++ [⟨x, rn⟩]) r1
    have hx' : f.parse ((alGet (stripKeys (rowPopNone row)) f.name).getD .none)
        = .error x := hx
    have hloop : fieldLoop .contE nmap rn (stripKeys (rowPopNone row)) fields [] [] false
        = .ok (o2, e2, r2) := by
      rw [hsplit, fieldLoop_append, h1]
      simp only [fieldLoop, hx', hreq, Bool.false_eq_true, if_false]
      exact h2
    have hr2 : r2 = false := by
      by_contra hcon
      have h : r2 = true := by
        cases r2
        · exact absurd rfl hcon
        · rfl
      rcases (fieldLoop_rf nmap rn _ fields [] o2 [] e2 false r2 hloop).mp h with
        hc | ⟨g, hg, hgreq, y, hy⟩
      · simp at hc
      · exact hnone g hg hgreq y hy
    refine ⟨e2, o2, ?_, ?_⟩
    · simp only [processRecord, hb, Bool.false_eq_true, if_false, hloop, hr2]
    · have hskip := fieldLoop_out_skip nmap rn _ post _ o2 _ e2 r1 r2 h2
        (onameOf nmap f) hpost
      rw [hskip]
      exact alGet_insert_self o1 (onameOf nmap f) f.default
  · rintro pre f post x rest hsplit hpre hx
    obtain ⟨o1, h1⟩ :=
      fieldLoop_all_ok .raiseE nmap rn (stripKeys (rowPopNone row)) pre [] [] false hpre
    have hx' : f.parse ((alGet (stripKeys (rowPopNone row)) f.name).getD .none)
        = .error x := hx
    have hloop : fieldLoop .raiseE nmap rn (stripKeys (rowPopNone row)) fields [] [] false
        = .error ⟨x, rn⟩ := by
      rw [hsplit, fieldLoop_append, h1]
      simp only [fieldLoop, hx']
    have hrec : processRecord .raiseE fields nmap rn row = .error ⟨x, rn⟩ := by
      simp only [processRecord, hb, Bool.false_eq_true, if_false, hloop]
    simp only [iterFrom, hrec]

/-- Claim C5 witness: the theorem applied to the spec's pipeline example —
a record missing the required `price` is discarded with its error reported
at record 0; a record with a malformed non-required `currency` is yielded
with the default `"GBP"`; under the abort policy the missing-price error
stops the iteration. -/
theorem c5_witness :
    (∃ errs, processRecord .contE [priceF] [] 0 [(some "currency", .str "USD")]
        = .ok (errs, Option.none) ∧
      ∀ g ∈ [priceF], ∀ x,
        g.parse (rawOf [(some "currency", .str "USD")] g) = .error x →
        (⟨x, 0⟩ : AnnErr) ∈ errs)
  ∧ (∃ errs out, processRecord .contE [currF] [] 0 [(some "currency", .int 5)]
        = .ok (errs, some out) ∧
      alGet out (onameOf [] currF) = some (.str "GBP"))
  ∧ iterFrom .raiseE [priceF] [] 0 [[(some "currency", .str "USD")]]
      = ([], [], some ⟨.missing (some "price"), 0⟩) :=
  ⟨( c5_theorem [priceF] [] 0 [(some "currency", .str "USD")] (by decide)).1
      ⟨priceF, List.mem_singleton_self priceF, rfl,
       .missing (some "price"), by decide⟩,
   ( c5_theorem [currF] [] 0 [(some "currency", .int 5)] (by decide)).2.1
      [] currF [] rfl rfl
      (by
        intro g hg hgreq x hcon
        rw [List.mem_singleton] at hg
        subst hg
        simp [currF] at hgreq)
      (.fieldType (some "currency") (.int 5) "string") (by decide)
      (fun g hg => absurd hg (List.not_mem_nil g)),
   ( c5_theorem [priceF] [] 0 [(some "currency", .str "USD")] (by decide)).2.2
      [] priceF [] (.missing (some "price")) [] rfl
      (fun g hg => absurd hg (List.not_mem_nil g)) (by decide)⟩

/-! Python-equality lemmas and choice-map lemmas for Claim C6. -/

/-- The integer embedding agrees with the cast. -/
theorem intQ_cast (n : ℤ) : intQ n = (n : ℚ) := Rat.mkRat_one n

/-- Python `==` is transitive on the modelled universe. -/
theorem pyEq_trans (a b c : PyVal) (h1 : pyEq a b = true) (h2 : pyEq b c = true) :
    pyEq a c = true := by
  cases a <;> cases b <;> cases c <;>
    simp_all [pyEq, intQ_cast, Int.cast_injective.eq_iff]

/-- Python `==` is symmetric. -/
theorem pyEq_symm (a b : PyVal) : pyEq a b = pyEq b a := by
  cases a <;> cases b <;> simp [pyEq, eq_comm]

/-- A successful `==`-lookup comes from some stored entry. -/
theorem lookupEq_some_ex (m : List (PyVal × PyVal)) (k v : PyVal)
    (h : lookupEq m k = some v) :
    ∃ k0, (k0, v) ∈ m ∧ pyEq k k0 = true := by
  induction m with
  | nil => simp [lookupEq] at h
  | cons p r ih =>
    cases p with
    | mk k0 v0 =>
      simp only [lookupEq] at h
      by_cases hk : pyEq k k0
      · rw [if_pos hk] at h
        cases h
        exact ⟨k0, List.mem_cons_self _ _, hk⟩
      · rw [if_neg hk] at h
        rcases ih h with ⟨k1, hk1, he⟩
        exact ⟨k1, List.mem_cons_of_mem _ hk1, he⟩

/-- A failed `==`-lookup misses every stored key. -/
theorem lookupEq_none_all (m : List (PyVal × PyVal)) (k : PyVal)
    (h : lookupEq m k = Option.none) :
    ∀ p ∈ m, pyEq k p.1 = false := by
  induction m with
  | nil => intro p hp; simp at hp
  | cons q r ih =>
    intro p hp
    cases q with
    | mk k0 v0 =>
      simp only [lookupEq] at h
      by_cases hk : pyEq k k0
      · rw [if_pos hk] at h
        cases h
      · rw [if_neg hk] at h
        rcases List.mem_cons.mp hp with hpe | hpm
        · subst hpe
          simpa using hk
        · exact ih h p hpm

/-- Membership after a map insert. -/
theorem insertEq_mem (m : List (PyVal × PyVal)) (k v : PyVal)
    (p : PyVal × PyVal) (hp : p ∈ insertEq m k v) :
    p ∈ m ∨ p = (k, v) ∨ (p.2 = v ∧ pyEq p.1 k = true) := by
  induction m with
  | nil =>
    simp only [insertEq, List.mem_singleton] at hp
    exact Or.inr (Or.inl hp)
  | cons q r ih =>
    cases q with
    | mk k0 v0 =>
      simp only [insertEq] at hp
      by_cases hk : pyEq k0 k
      · rw [if_pos hk] at hp
        rcases List.mem_cons.mp hp with hpe | hpm
        · subst hpe
          exact Or.inr (Or.inr ⟨rfl, hk⟩)
        · exact Or.inl (List.mem_cons_of_mem _ hpm)
      · rw [if_neg hk] at hp
        rcases List.mem_cons.mp hp with hpe | hpm
        · subst hpe
          exact Or.inl (List.mem_cons_self _ _)
        · rcases ih hpm with h | h | h
          · exact Or.inl (List.mem_cons_of_mem _ h)
          · exact Or.inr (Or.inl h)
          · exact Or.inr (Or.inr h)

/-- A lookup that misses an inserted map also misses the inserted key and
the underlying map. -/
theorem insertEq_none (m : List (PyVal × PyVal)) (k0 v k : PyVal)
    (h : lookupEq (insertEq m k0 v) k = Option.none) :
    lookupEq m k = Option.none ∧ pyEq k k0 = false := by
  induction m with
  | nil =>
    simp only [insertEq, lookupEq] at h
    by_cases hk : pyEq k k0
    · rw [if_pos hk] at h
      cases h
    · exact ⟨rfl, by simpa using hk⟩
  | cons q r ih =>
    cases q with
    | mk k1 v1 =>
      simp only [insertEq] at h
      by_cases hk1 : pyEq k1 k0
      · rw [if_pos hk1] at h
        simp only [lookupEq] at h ⊢
        by_cases hk : pyEq k k1
        · rw [if_pos hk] at h
          cases h
        · rw [if_neg hk] at h ⊢
          refine ⟨h, ?_⟩
          by_cases hkk : pyEq k k0
          · exact absurd (pyEq_trans k k0 k1 hkk (by rw [pyEq_symm]; exact hk1))
              (by simpa using hk)
          · simpa using hkk
      · rw [if_neg hk1] at h
        simp only [lookupEq] at h ⊢
        by_cases hk : pyEq k k1
        · rw [if_pos hk] at h
          cases h
        · rw [if_neg hk] at h ⊢
          exact ih h

/-- Invariant of choice maps: every entry's value is a choice and its key is
that choice's transform (up to `==`). -/
def GoodMap (cse : Bool) (cs : List PyVal) (m : List (PyVal × PyVal)) : Prop :=
  ∀ p ∈ m, p.2 ∈ cs ∧
    (pyEq p.1 (keyTrans cse p.2) = true ∨ p.1 = keyTrans cse p.2)

/-- The choice map of `_parse_choices` satisfies the invariant. -/
theorem buildMap_good (cse : Bool) (cs : List PyVal) :
    GoodMap cse cs (buildMap cse cs) := by
  suffices h : ∀ (l : List PyVal) (m : List (PyVal × PyVal)),
      (∀ c ∈ l, c ∈ cs) → GoodMap cse cs m →
      GoodMap cse cs (l.foldl (fun m c => insertEq m (keyTrans cse c) c) m) by
    exact h cs [] (fun c hc => hc) (fun p hp => absurd hp (List.not_mem_nil p))
  intro l
  induction l with
  | nil => intro m _ hm; exact hm
  | cons c l' ih =>
    intro m hl hm
    refine ih _ (fun d hd => hl d (List.mem_cons_of_mem c hd)) ?_
    intro p hp
    rcases insertEq_mem m (keyTrans cse c) c p hp with h | h | h
    · exact hm p h
    · subst h
      exact ⟨hl c (List.mem_cons_self c l'), Or.inr rfl⟩
    · obtain ⟨h2, h1⟩ := h
      refine ⟨?_, Or.inl ?_⟩
      · rw [h2]
        exact hl c (List.mem_cons_self c l')
      · rw [h2]
        exact h1

/-- A lookup that misses the whole choice map misses every choice key. -/
theorem buildMap_none (cse : Bool) (cs : List PyVal) (k : PyVal)
    (h : lookupEq (buildMap cse cs) k = Option.none) :
    ∀ c ∈ cs, pyEq k (keyTrans cse c) = false := by
  suffices hgen : ∀ (l : List PyVal) (m : List (PyVal × PyVal)),
      lookupEq (l.foldl (fun m c => insertEq m (keyTrans cse c) c) m) k = Option.none →
      lookupEq m k = Option.none ∧ ∀ c ∈ l, pyEq k (keyTrans cse c) = false by
    exact (hgen cs [] h).2
  intro l
  induction l with
  | nil =>
    intro m hm
    exact ⟨hm, fun c hc => absurd hc (List.not_mem_nil c)⟩
  | cons c l' ih =>
    intro m hm
    rcases ih _ hm with ⟨hins, hall⟩
    rcases insertEq_none m (keyTrans cse c) c k hins with ⟨hm0, hc0⟩
    refine ⟨hm0, ?_⟩
    intro d hd
    rcases List.mem_cons.mp hd with hde | hdm
    · subst hde
      exact hc0
    · exact hall d hdm

/-- With default bounds the range check never fires. -/
theorem rangeBad_default (q : ℚ) : rangeBad {} (some q) = false := by
  simp [rangeBad]

/-- Shape of the secondary float parse used by `Domain.validate`: on a
string it either returns a float value or fails with a
`MalformedFieldError` (never any other error kind). -/
theorem floatValidate_str (t : String) :
    (∃ q, floatValidate Option.none {} (.str t) = .ok (.float q))
  ∨ floatValidate Option.none {} (.str t)
      = .error (.malformed Option.none
          (.str (String.mk (numStrPrep t.data))) "number") := by
  simp only [floatValidate, numValidate, floatConv]
  cases hp : parseNum (String.mk (numStrPrep t.data)).data with
  | some q =>
    left
    exact ⟨f64 q, rfl⟩
  | none =>
    right
    rfl

/-! Claim C6. -/

/-- Claim C6: `Domain.validate` returns exactly a canonical stored choice —
an element of the choices list, matched after case folding (or after the
secondary float parse of a textual input when the choices include numbers) —
whenever the input matches one, and raises `DomainError` exactly otherwise.
The NaN exclusions mark where CPython's identity-based dict lookup is
outside the model. -/
theorem c6_theorem (cse : Bool) (cs : List PyVal) (v : PyVal)
    (hnan : .nan ∉ cs) (hv : v ≠ .nan) :
    (∀ c, domValidate Option.none cse cs v = .ok c →
        c ∈ cs ∧ specMatch cse cs v c = true)
  ∧ ((∃ c ∈ cs, specMatch cse cs v c = true) →
        ∃ c, domValidate Option.none cse cs v = .ok c)
  ∧ ((∀ c ∈ cs, specMatch cse cs v c = false) →
        domValidate Option.none cse cs v
          = .error (.domainE Option.none v (choicesDisplay cs))) := by
  have hgood := buildMap_good cse cs
  have getc : ∀ key c, lookupEq (buildMap cse cs) key = some c →
      c ∈ cs ∧ pyEq key (keyTrans cse c) = true := by
    intro key c hlk
    rcases lookupEq_some_ex _ _ _ hlk with ⟨k0, hk0mem, hk0⟩
    rcases hgood (k0, c) hk0mem with ⟨hcs, hdisj⟩
    refine ⟨hcs, ?_⟩
    rcases hdisj with hh | hh
    · exact pyEq_trans key k0 (keyTrans cse c) hk0 hh
    · have hh' : k0 = keyTrans cse c := hh
      rw [hh'] at hk0
      exact hk0
  have mk_ok : ∀ c, domValidate Option.none cse cs v = .ok c → c ∈ cs →
      specMatch cse cs v c = true →
      (∀ c', domValidate Option.none cse cs v = .ok c' →
          c' ∈ cs ∧ specMatch cse cs v c' = true)
    ∧ ((∃ c' ∈ cs, specMatch cse cs v c' = true) →
          ∃ c', domValidate Option.none cse cs v = .ok c')
    ∧ ((∀ c' ∈ cs, specMatch cse cs v c' = false) →
          domValidate Option.none cse cs v
            = .error (.domainE Option.none v (choicesDisplay cs))) := by
    intro c heq hcs hsm
    refine ⟨?_, fun _ => ⟨c, heq⟩, ?_⟩
    · intro c' hc'
      rw [heq] at hc'
      have hcc := Except.ok.inj hc'
      subst hcc
      exact ⟨hcs, hsm⟩
    · intro hall
      rw [hall c hcs] at hsm
      cases hsm
  have mk_err : domValidate Option.none cse cs v
        = .error (.domainE Option.none v (choicesDisplay cs)) →
      (∀ c ∈ cs, specMatch cse cs v c = false) →
      (∀ c', domValidate Option.none cse cs v = .ok c' →
          c' ∈ cs ∧ specMatch cse cs v c' = true)
    ∧ ((∃ c' ∈ cs, specMatch cse cs v c' = true) →
          ∃ c', domValidate Option.none cse cs v = .ok c')
    ∧ ((∀ c' ∈ cs, specMatch cse cs v c' = false) →
          domValidate Option.none cse cs v
            = .error (.domainE Option.none v (choicesDisplay cs))) := by
    intro heq hallf
    refine ⟨?_, ?_, fun _ => heq⟩
    · intro c' hc'
      rw [heq] at hc'
      cases hc'
    · rintro ⟨c, hc, hsm⟩
      rw [hallf c hc] at hsm
      cases hsm
  cases h1 : lookupEq (buildMap cse cs) (keyTrans cse v) with
  | some c =>
    have heq : domValidate Option.none cse cs v = .ok c := by
      simp only [domValidate, h1]
    rcases getc _ c h1 with ⟨hcs, hpy⟩
    exact mk_ok c heq hcs (by simp [specMatch, hpy])
  | none =>
    have hall1 : ∀ c ∈ cs, pyEq (keyTrans cse v) (keyTrans cse c) = false :=
      buildMap_none cse cs _ h1
    cases hk : keyTrans cse v with
    | str t =>
      simp only [hk] at hall1
      by_cases hnum : hasNumC cs
      · cases hfv : floatValidate Option.none {} (.str t) with
        | ok k2 =>
          cases h2 : lookupEq (buildMap cse cs) k2 with
          | some c =>
            have heq : domValidate Option.none cse cs v = .ok c := by
              simp only [domValidate, h1]
              simp only [hk, hnum, if_true, hfv, h2]
            rcases getc _ c h2 with ⟨hcs, hpy⟩
            refine mk_ok c heq hcs ?_
            simp [specMatch, hk, hnum, hfv, hpy]
          | none =>
            have hall2 : ∀ c ∈ cs, pyEq k2 (keyTrans cse c) = false :=
              buildMap_none cse cs k2 h2
            have heq : domValidate Option.none cse cs v
                = .error (.domainE Option.none v (choicesDisplay cs)) := by
              simp only [domValidate, h1]
              simp only [hk, hnum, if_true, hfv, h2]
            refine mk_err heq ?_
            intro c hc
            simp [specMatch, hk, hnum, hfv, hall1 c hc, hall2 c hc]
        | error e =>
          rcases floatValidate_str t with ⟨q, hq⟩ | hq
          · rw [hq] at hfv
            cases hfv
          · rw [hq] at hfv
            have heq : domValidate Option.none cse cs v
                = .error (.domainE Option.none v (choicesDisplay cs)) := by
              simp only [domValidate, h1]
              simp only [hk, hnum, if_true, hq]
            refine mk_err heq ?_
            intro c hc
            simp [specMatch, hk, hnum, hq, hall1 c hc]
      · have heq : domValidate Option.none cse cs v
            = .error (.domainE Option.none v (choicesDisplay cs)) := by
          simp only [domValidate, h1]
          simp only [hk]
          simp [hnum]
        refine mk_err heq ?_
        intro c hc
        simp [specMatch, hk, hall1 c hc, hnum]
    | none =>
      have heq : domValidate Option.none cse cs v
          = .error (.domainE Option.none v (choicesDisplay cs)) := by
        simp only [domValidate, h1]
        simp only [hk]
      exact mk_err heq (fun c hc => by
        have h5 := hall1 c hc
        rw [hk] at h5
        simp [specMatch, hk, h5])
    | int n =>
      have heq : domValidate Option.none cse cs v
          = .error (.domainE Option.none v (choicesDisplay cs)) := by
        simp only [domValidate, h1]
        simp only [hk]
      exact mk_err heq (fun c hc => by
        have h5 := hall1 c hc
        rw [hk] at h5
        simp [specMatch, hk, h5])
    | float q =>
      have heq : domValidate Option.none cse cs v
          = .error (.domainE Option.none v (choicesDisplay cs)) := by
        simp only [domValidate, h1]
        simp only [hk]
      exact mk_err heq (fun c hc => by
        have h5 := hall1 c hc
        rw [hk] at h5
        simp [specMatch, hk, h5])
    | dec q =>
      have heq : domValidate Option.none cse cs v
          = .error (.domainE Option.none v (choicesDisplay cs)) := by
        simp only [domValidate, h1]
        simp only [hk]
      exact mk_err heq (fun c hc => by
        have h5 := hall1 c hc
        rw [hk] at h5
        simp [specMatch, hk, h5])
    | nan =>
      have heq : domValidate Option.none cse cs v
          = .error (.domainE Option.none v (choicesDisplay cs)) := by
        simp only [domValidate, h1]
        simp only [hk]
      exact mk_err heq (fun c hc => by
        have h5 := hall1 c hc
        rw [hk] at h5
        simp [specMatch, hk, h5])

/-- Claim C6 witness: the theorem applied to the spec's exemplar — choices
`[1, 2.0]` with the input `1.0` yield exactly the stored integer `1` (the
original type), and an unmatched string raises `DomainError`. -/
theorem c6_witness :
    domValidate Option.none true [.int 1, .float 2] (.float 1) = .ok (.int 1)
  ∧ (∃ c, domValidate Option.none true [.int 1, .float 2] (.float 1) = .ok c)
  ∧ domValidate Option.none true [.int 1, .float 2] (.str "hEllo")
      = .error (.domainE Option.none (.str "hEllo")
          (choicesDisplay [.int 1, .float 2])) :=
  ⟨by decide,
   ( c6_theorem true [.int 1, .float 2] (.float 1) (by decide) (by decide)).2.1
     ⟨.int 1, by decide, by decide⟩,
   ( c6_theorem true [.int 1, .float 2] (.str "hEllo") (by decide) (by decide)).2.2
     (by decide)⟩

end FF
